import Mathlib

/-!
Verification of the markdown-to-HTML converter (`markdown_to_html.py`).

The development shallowly embeds the table-of-contents extractor
(`extract_toc_from_markdown`), the sidebar renderer (`generate_sidebar_toc`),
the slug derivation, the page-title extraction, the output-filename mapping
and the batch conversion loop of the script, and proves the specified
properties about them.

Modelling conventions:
* Python `str` values are modelled as Lean `String` / `List Char`; the
  character classes `\w` and `\s` of the `re` module, and `str.strip`,
  `str.lower`, `str.title`, are modelled over their ASCII meaning
  (all inputs appearing in the claims are ASCII).
* Fallible code (a document conversion that may raise) is modelled with
  `Except`; the body renderer delegated to the external `markdown` library
  is out of scope and is treated as an opaque-free parameter.
-/

/-- Python `\s` (ASCII range): space, tab, newline, carriage return,
form feed, vertical tab. -/
def isSpaceChar (c : Char) : Bool :=
  c = ' ' || c = '\t' || c = '\n' || c = '\r' || c = '\x0b' || c = '\x0c'

/-- Python `\w` (ASCII range): letters, digits and underscore. -/
def isWordChar (c : Char) : Bool :=
  c.isAlphanum || c = '_'

/-- Python `str.strip()` on a character list: drop whitespace from both ends. -/
def pyStripL (l : List Char) : List Char :=
  ((l.dropWhile isSpaceChar).reverse.dropWhile isSpaceChar).reverse

/-- Python `str.strip()` on strings. -/
def pyStrip (s : String) : String :=
  ⟨pyStripL s.data⟩

/-- Python `str.lower()` (ASCII): lower-case every character. -/
def pyLower (s : String) : String :=
  ⟨s.data.map Char.toLower⟩

/-- The character class kept by `re.sub(r'[^\w\s-]', '', ...)`:
word characters, whitespace and the hyphen survive, everything else
is deleted. -/
def slugKeep (c : Char) : Bool :=
  isWordChar c || isSpaceChar c || c = '-'

/-- `str.replace(' ', '-')` acts on single characters: each space becomes
a hyphen, every other character is unchanged. -/
def spaceToHyphen (c : Char) : Char :=
  if c = ' ' then '-' else c

/-- Line 31 of `markdown_to_html.py`:
`slug = re.sub(r'[^\w\s-]', '', title.lower()).strip().replace(' ', '-')`. -/
def slugifyL (title : List Char) : List Char :=
  (pyStripL ((title.map Char.toLower).filter slugKeep)).map spaceToHyphen

/-- String-level wrapper for the slug derivation. -/
def slugify (title : String) : String :=
  ⟨slugifyL title.data⟩

/-- A heading record of the outline: `{'level': .., 'title': .., 'slug': ..}`
as appended by `extract_toc_from_markdown`. -/
structure TocItem where
  level : Nat
  title : String
  slug : String
deriving DecidableEq, Repr

/-- Python `content.split('\n')`: split at every newline, keeping empty
pieces; the empty string yields one empty piece. -/
def splitOnNewline : List Char → List (List Char)
  | [] => [[]]
  | c :: t =>
    if c = '\n' then [] :: splitOnNewline t
    else
      match splitOnNewline t with
      | [] => [[c]]
      | h :: r => (c :: h) :: r

/-- The per-line body of the loop in `extract_toc_from_markdown`
(lines 24-37): `re.match(r'^(#{1,6})\s+(.*)', line.strip())`, and on a
match the record with `level = len(group(1))`, `title = group(2).strip()`
and the slug derived from the title.  The regex matches when the stripped
line starts with one to six `#` followed by at least one whitespace
character (seven or more `#` cannot match: backtracking below six leaves
a `#`, which is not whitespace); `\s+` is greedy, and `(.*)` takes the
rest of the line (`.` does not cross a newline). -/
def lineRecord (line : List Char) : Option TocItem :=
  let t := pyStripL line
  let hashes := t.takeWhile (fun c => c = '#')
  match t.dropWhile (fun c => c = '#') with
  | c :: rest =>
    if 1 ≤ hashes.length ∧ hashes.length ≤ 6 ∧ isSpaceChar c = true then
      let group2 := ((c :: rest).dropWhile isSpaceChar).takeWhile (fun c => c ≠ '\n')
      let title := pyStripL group2
      some ⟨hashes.length, ⟨title⟩, ⟨slugifyL title⟩⟩
    else none
  | [] => none

/-- `extract_toc_from_markdown` (lines 15-39): split the content on
newlines, and for each matching line append one record to `toc`. -/
def extract_toc_from_markdown (content : String) : List TocItem :=
  (splitOnNewline content.data).foldl
    (fun toc line =>
      match lineRecord line with
      | some item => toc ++ [item]
      | none => toc)
    []

/-- `html += '    <ul class="nested-toc">\n'` (line 59). -/
def nestedOpen : String := "    <ul class=\"nested-toc\">\n"

/-- `html += '    </ul>\n</li>\n'` (line 63). -/
def nestedClose : String := "    </ul>\n</li>\n"

/-- A `for _ in range(n): html += s` loop appends `s` `n` times. -/
def repeatStr : Nat → String → String
  | 0, _ => ""
  | n + 1, s => s ++ repeatStr n s

/-- The initial buffer of `generate_sidebar_toc` (line 49). -/
def tocHeader : String := "<div class=\"toc-title\">Contents</div>\n<ul class=\"toc-list\">\n"

/-- The fallback fragment returned for an empty outline (line 47). -/
def emptyTocHtml : String := "<p>No table of contents available</p>"

/-- One iteration of the loop of `generate_sidebar_toc` (lines 52-68):
open `level - current_level` nested lists when the level grows, close
`current_level - level` when it shrinks, append the list item, and set
`current_level` to the item's level. -/
def tocStep (acc : String × Nat) (item : TocItem) : String × Nat :=
  let html := acc.1
  let current_level := acc.2
  let html :=
    if item.level > current_level then
      html ++ repeatStr (item.level - current_level) nestedOpen
    else if item.level < current_level then
      html ++ repeatStr (current_level - item.level) nestedClose
    else html
  (html ++ ("    <li><a href=\"#" ++ item.slug ++ "\">" ++ item.title ++ "</a>"), item.level)

/-- `generate_sidebar_toc` (lines 42-75): the fallback fragment for an
empty outline; otherwise the header, the item loop starting from
`current_level = 1`, the closing of `current_level - 1` remaining nested
lists, and the final `'</li>\n</ul>\n'`. -/
def generate_sidebar_toc (toc : List TocItem) : String :=
  match toc with
  | [] => emptyTocHtml
  | _ =>
    let st := toc.foldl tocStep (tocHeader, 1)
    st.1 ++ repeatStr (st.2 - 1) nestedClose ++ "</li>\n</ul>\n"

/-- `Path(name).stem` for a file name: the name without its last suffix;
the suffix is the part from the last dot when that dot is neither the
first nor the last character (CPython's `pathlib` rule
`0 < name.rfind('.') < len(name) - 1`). -/
def stemOf (name : String) : String :=
  let rev := name.data.reverse
  let suff := rev.takeWhile (fun c => c ≠ '.')
  if suff.length < rev.length ∧ 0 < suff.length ∧ suff.length + 1 < rev.length then
    ⟨(rev.drop (suff.length + 1)).reverse⟩
  else name

/-- Lines 479-487 of `convert_markdown_to_html`: map the input stem to the
output file name; `readme`, `readme_en` and `contributing` are compared
case-insensitively, every other stem is kept, and `.html` is appended. -/
def outputFileName (stem : String) : String :=
  let filename :=
    if pyLower stem = "readme" then "index"
    else if pyLower stem = "readme_en" then "index_en"
    else if pyLower stem = "contributing" then "contributing"
    else stem
  filename ++ ".html"

/-- Backtracking search for `\s+(.+)` after the leading `#` of
`re.match(r'^#\s+(.+)', content, re.MULTILINE)`: `\s+` greedily takes the
maximal whitespace run of length `k`, then gives characters back until
`.+` can take at least one non-newline character; the group is the
maximal non-newline run at that point. -/
def titleGroup (rest : List Char) : Nat → Option (List Char)
  | 0 => none
  | k + 1 =>
    let g := (rest.drop (k + 1)).takeWhile (fun c => c ≠ '\n')
    if g = [] then titleGroup rest k else some g

/-- `re.match(r'^#\s+(.+)', markdown_content, re.MULTILINE)` (line 100).
`re.match` anchors at the start of the string even under `re.MULTILINE`,
so the only candidate position is offset 0. -/
def matchTitle : List Char → Option (List Char)
  | '#' :: rest => titleGroup rest (rest.takeWhile isSpaceChar).length
  | _ => none

/-- Python `str.title()` (ASCII): a letter is upper-cased when the
previous character is not a letter, lower-cased otherwise. -/
def pyTitleAux : Bool → List Char → List Char
  | _, [] => []
  | prevAlpha, c :: t =>
    if c.isAlpha then
      (if prevAlpha then c.toLower else c.toUpper) :: pyTitleAux true t
    else c :: pyTitleAux false t

/-- `Path(input_file).stem.replace('_', ' ').title()` (line 104). -/
def fallbackTitle (stem : String) : String :=
  ⟨pyTitleAux false (stem.data.map (fun c => if c = '_' then ' ' else c))⟩

/-- Lines 100-104 of `convert_markdown_to_html`: the page title is the
group of `re.match(r'^#\s+(.+)', content, re.MULTILINE)` when it matches,
and otherwise the title-cased stem with underscores turned into spaces. -/
def extractTitle (content : String) (stem : String) : String :=
  match matchTitle content.data with
  | some g => ⟨g⟩
  | none => fallbackTitle stem

/-- The message printed by `convert_markdown_to_html` on success
(line 493) or by the batch loop's `except` branch (line 549).  The
conversion itself is a parameter: `Except.ok` carries the output path of
a successful conversion, `Except.error` the stringified exception. -/
def convertReport (convert : String → Except String String) (f : String) : String :=
  match convert f with
  | Except.ok out => "Converted " ++ f ++ " -> " ++ out
  | Except.error e => "Error converting " ++ f ++ ": " ++ e

/-- The batch loop of `main` (lines 545-549): each file is converted
inside `try`/`except`, so a failure is reported and the loop moves on. -/
def convertLoop (convert : String → Except String String) : List String → List String
  | [] => []
  | f :: rest => convertReport convert f :: convertLoop convert rest

/-- Line 551: the completion message (the Python source escapes the
backslash, so the printed text literally starts with `\n`). -/
def completionMessage : String :=
  "\\nConversion complete! HTML files saved in the \x27docs/\x27 directory."

/-- Lines 536-551 of `main`: report when no files are found; otherwise
print the count, run the batch loop, and print the completion message. -/
def mainMessages (convert : String → Except String String) (files : List String) : List String :=
  match files with
  | [] => ["No markdown files found in the current directory."]
  | _ =>
    ("Found " ++ toString files.length ++ " markdown files to convert...")
      :: (convertLoop convert files ++ [completionMessage])

/-- Spec-side description of a well-formed heading line, written from the
claim's words independently of `lineRecord`: the trimmed line must consist
of one to six `#` characters, then at least one whitespace character, then
the remaining text; the resulting record is the pair of the number of
leading `#` characters and the trimmed remaining text.  Used to compare
the extractor's behaviour with the claimed one. -/
def headingSpecLT (line : List Char) : Option (Nat × String) :=
  let t := pyStripL line
  let k := (t.takeWhile (fun c => c = '#')).length
  match t.drop k with
  | c :: r =>
    if 1 ≤ k ∧ k ≤ 6 ∧ isSpaceChar c = true then some (k, ⟨pyStripL r⟩) else none
  | [] => none

/-- The number of occurrences of `pat` in a character list: the number of
positions at which `pat` is a prefix of the remaining list. -/
def countSub (pat : List Char) : List Char → Nat
  | [] => 0
  | c :: t => (if pat <+: (c :: t) then 1 else 0) + countSub pat t

/-- Occurrence count of a pattern in a string. -/
def csubS (pat : List Char) (s : String) : Nat :=
  countSub pat s.data

/-- The opening list-wrapper token `<ul`. -/
def ulOpenPat : List Char := "<ul".data

/-- The closing list-wrapper tag `</ul>`. -/
def ulClosePat : List Char := "</ul>".data

/-- Spec-side description of the claimed slug whitespace handling:
replace every internal run of whitespace characters, of any length, by a
single hyphen.  Written from the claim's words, to be compared with the
code's `slugifyL`. -/
def collapseWs : Bool → List Char → List Char
  | _, [] => []
  | inRun, c :: t =>
    if isSpaceChar c then
      if inRun then collapseWs true t else '-' :: collapseWs true t
    else c :: collapseWs false t

/-- The slug derivation as the claim describes it: lower-case, keep only
word characters, whitespace and hyphens, trim the ends, then collapse
each internal whitespace run into one hyphen. -/
def slugClaim (title : String) : String :=
  ⟨collapseWs false (pyStripL ((title.data.map Char.toLower).filter slugKeep))⟩

/-! ### Helper lemmas about characters -/

theorem char_toLower_eq (c : Char) :
    Char.toLower c = if c.toNat ≥ 65 ∧ c.toNat ≤ 90 then Char.ofNat (c.toNat + 32) else c := rfl

theorem char_toNat_ofNat_valid (n : Nat) (h : n.isValidChar) : (Char.ofNat n).toNat = n := by
  unfold Char.ofNat
  rw [dif_pos h]
  rfl

theorem char_toLower_toLower (c : Char) : c.toLower.toLower = c.toLower := by
  by_cases h : c.toNat ≥ 65 ∧ c.toNat ≤ 90
  · have hv : Nat.isValidChar (c.toNat + 32) := Or.inl (by omega)
    have h1 : c.toLower = Char.ofNat (c.toNat + 32) := by rw [char_toLower_eq, if_pos h]
    have h2 : c.toLower.toNat = c.toNat + 32 := by rw [h1, char_toNat_ofNat_valid _ hv]
    rw [char_toLower_eq c.toLower, if_neg (by rw [h2]; omega)]
  · have h1 : c.toLower = c := by rw [char_toLower_eq, if_neg h]
    rw [h1, h1]

/-! ### Helper lemmas about `dropWhile`, `takeWhile` and `pyStripL` -/

theorem dropWhileSelf {p : Char → Bool} {m : List Char}
    (h : ∀ c, m.head? = some c → p c = false) : m.dropWhile p = m := by
  cases m with
  | nil => rfl
  | cons a t => simp [List.dropWhile_cons, h a rfl]

theorem dropWhileHead {p : Char → Bool} {m : List Char} {c : Char}
    (h : (m.dropWhile p).head? = some c) : p c = false := by
  induction m with
  | nil => simp at h
  | cons a t ih =>
    by_cases hp : p a = true
    · rw [List.dropWhile_cons, if_pos hp] at h
      exact ih h
    · rw [List.dropWhile_cons, if_neg hp] at h
      rw [Bool.not_eq_true] at hp
      rw [List.head?_cons] at h
      cases h
      exact hp

theorem takeWhileSelf {p : Char → Bool} {m : List Char}
    (h : ∀ c ∈ m, p c = true) : m.takeWhile p = m := by
  induction m with
  | nil => rfl
  | cons a t ih =>
    rw [List.takeWhile_cons, if_pos (h a (List.mem_cons_self a t))]
    rw [ih (fun c hc => h c (List.mem_cons_of_mem a hc))]

theorem mem_of_mem_pyStripL {c : Char} {l : List Char} (h : c ∈ pyStripL l) : c ∈ l := by
  unfold pyStripL at h
  rw [List.mem_reverse] at h
  have h1 := (List.dropWhile_suffix isSpaceChar).subset h
  rw [List.mem_reverse] at h1
  exact (List.dropWhile_suffix isSpaceChar).subset h1

theorem pyStripL_eq_self {l : List Char}
    (h1 : ∀ c, l.head? = some c → isSpaceChar c = false)
    (h2 : ∀ c, l.getLast? = some c → isSpaceChar c = false) : pyStripL l = l := by
  unfold pyStripL
  rw [dropWhileSelf h1]
  rw [dropWhileSelf (fun c hc => h2 c (by rwa [List.head?_reverse] at hc))]
  exact List.reverse_reverse l

theorem pyStripL_getLast {l : List Char} {c : Char}
    (h : (pyStripL l).getLast? = some c) : isSpaceChar c = false := by
  unfold pyStripL at h
  rw [List.getLast?_reverse] at h
  exact dropWhileHead h

theorem pyStripL_isPre (l : List Char) : pyStripL l <+: l.dropWhile isSpaceChar := by
  apply List.reverse_suffix.mp
  rw [pyStripL, List.reverse_reverse]
  exact List.dropWhile_suffix isSpaceChar

theorem pyStripL_head {l : List Char} {c : Char}
    (h : (pyStripL l).head? = some c) : isSpaceChar c = false := by
  obtain ⟨t, ht⟩ := pyStripL_isPre l
  have hne : pyStripL l ≠ [] := by
    intro he
    rw [he] at h
    simp at h
  apply dropWhileHead (p := isSpaceChar) (m := l)
  rw [← ht, List.head?_append_of_ne_nil _ hne]
  exact h

theorem pyStripL_dropWhile (l : List Char) :
    pyStripL (l.dropWhile isSpaceChar) = pyStripL l := by
  unfold pyStripL
  rw [dropWhileSelf (fun c hc => dropWhileHead hc)]

/-! ### Helper lemmas about occurrence counting -/

theorem countSubNil (pat : List Char) : countSub pat [] = 0 := rfl

theorem countSubApp (pat X Y : List Char)
    (h : ∀ j, j < pat.length → 0 < j → ¬(pat.take j <:+ X ∧ pat.drop j <+: Y)) :
    countSub pat (X ++ Y) = countSub pat X + countSub pat Y := by
  induction X with
  | nil => simp [countSubNil]
  | cons c X' ih =>
    have hspan' : ∀ j, j < pat.length → 0 < j → ¬(pat.take j <:+ X' ∧ pat.drop j <+: Y) := by
      intro j hj hj0 hc
      exact h j hj hj0 ⟨hc.1.trans (List.suffix_cons c X'), hc.2⟩
    have hiff : pat <+: (c :: X') ++ Y ↔ pat <+: c :: X' := by
      constructor
      · intro hp
        by_cases hlen : pat.length ≤ (c :: X').length
        · have he := List.prefix_iff_eq_take.mp hp
          rw [List.take_append_of_le_length hlen] at he
          rw [he]
          exact List.take_prefix pat.length (c :: X')
        · exfalso
          push_neg at hlen
          set j := (c :: X').length with hj
          have hj0 : 0 < j := by simp [hj]
          have he := List.prefix_iff_eq_take.mp hp
          have htake : pat.take j = c :: X' := by
            rw [he, List.take_take, Nat.min_eq_left (Nat.le_of_lt hlen)]
            exact List.take_left (c :: X') Y
          have hdrop : pat.drop j <+: Y := by
            rw [he, List.drop_take]
            have : (c :: X' ++ Y).drop j = Y := List.drop_left (c :: X') Y
            rw [this]
            exact List.take_prefix _ Y
          exact h j hlen hj0 ⟨htake ▸ List.suffix_refl (c :: X'), hdrop⟩
      · intro hp
        exact hp.trans (List.prefix_append (c :: X') Y)
    show (if pat <+: (c :: X') ++ Y then 1 else 0) + countSub pat (X' ++ Y)
        = (if pat <+: c :: X' then 1 else 0) + countSub pat X' + countSub pat Y
    rw [ih hspan']
    by_cases hp : pat <+: c :: X'
    · rw [if_pos hp, if_pos (hiff.mpr hp)]
      omega
    · rw [if_neg hp, if_neg (fun hq => hp (hiff.mp hq))]
      omega

theorem countSubAppRight (pat X Y : List Char)
    (hY : ∀ j, j < pat.length → 0 < j → ¬ pat.drop j <+: Y) :
    countSub pat (X ++ Y) = countSub pat X + countSub pat Y :=
  countSubApp pat X Y (fun j h1 h2 hc => hY j h1 h2 hc.2)

theorem takeNotSuffix (pat X : List Char) (c : Char)
    (hX : X.getLast? = some c) (hc : c ∉ pat.take (pat.length - 1)) :
    ∀ j, j < pat.length → 0 < j → ¬ pat.take j <:+ X := by
  intro j hj hj0 hs
  have hlen : (pat.take j).length = j := by
    simp [Nat.min_eq_left (Nat.le_of_lt hj)]
  have hne : pat.take j ≠ [] := by
    intro he
    rw [he] at hlen
    simp at hlen
    omega
  obtain ⟨t, ht⟩ := hs
  have h1 : X.getLast? = (pat.take j).getLast? := by
    rw [← ht]
    exact List.getLast?_append_of_ne_nil t hne
  have h2 : (pat.take j).getLast? = pat[j - 1]? := by
    rw [List.getLast?_eq_getElem?, hlen, List.getElem?_take]
    rw [if_pos (by omega)]
  have h3 : pat[j - 1]? = (pat.take (pat.length - 1))[j - 1]? := by
    rw [List.getElem?_take, if_pos (by omega)]
  have h4 : (pat.take (pat.length - 1))[j - 1]? = some c := by
    rw [← h3, ← h2, ← h1, hX]
  exact hc (List.getElem?_mem h4)

theorem countSubAppLast (pat X Y : List Char) (c : Char)
    (hX : X.getLast? = some c) (hc : c ∉ pat.take (pat.length - 1)) :
    countSub pat (X ++ Y) = countSub pat X + countSub pat Y :=
  countSubApp pat X Y (fun j h1 h2 hcc => takeNotSuffix pat X c hX hc j h1 h2 hcc.1)

theorem dataAppend (s t : String) : (s ++ t).data = s.data ++ t.data :=
  String.data_append s t

theorem csubSAppRight (pat : List Char) (X Y : String)
    (hY : ∀ j, j < pat.length → 0 < j → ¬ pat.drop j <+: Y.data) :
    csubS pat (X ++ Y) = csubS pat X + csubS pat Y := by
  unfold csubS
  rw [dataAppend]
  exact countSubAppRight pat X.data Y.data hY

theorem csubSAppLast (pat : List Char) (X Y : String) (c : Char)
    (hX : X.data.getLast? = some c) (hc : c ∉ pat.take (pat.length - 1)) :
    csubS pat (X ++ Y) = csubS pat X + csubS pat Y := by
  unfold csubS
  rw [dataAppend]
  exact countSubAppLast pat X.data Y.data c hX hc

theorem csubSRepeat (pat : List Char) (p : String) (n : Nat) (X : String)
    (hY : ∀ j, j < pat.length → 0 < j → ¬ pat.drop j <+: p.data) :
    csubS pat (X ++ repeatStr n p) = csubS pat X + n * csubS pat p := by
  induction n generalizing X with
  | zero =>
    show csubS pat (X ++ "") = _
    rw [String.append_empty]
    omega
  | succ n ih =>
    show csubS pat (X ++ (p ++ repeatStr n p)) = _
    rw [← String.append_assoc, ih (X ++ p), csubSAppRight pat X p hY]
    ring

theorem strLastAppend (X Y : String) (c : Char) (h : Y.data.getLast? = some c) :
    (X ++ Y).data.getLast? = some c := by
  rw [dataAppend]
  have hne : Y.data ≠ [] := by
    intro he
    rw [he] at h
    simp at h
  exact (List.getLast?_append_of_ne_nil X.data hne).trans h

theorem csubSLi (pat : List Char) (X : String) (item : TocItem)
    (hA : ∀ j, j < pat.length → 0 < j → ¬ pat.drop j <+: ("    <li><a href=\"#" : String).data)
    (hB : ∀ j, j < pat.length → 0 < j → ¬ pat.drop j <+: ("\">" : String).data)
    (hC : ∀ j, j < pat.length → 0 < j → ¬ pat.drop j <+: ("</a>" : String).data)
    (hsharp : '#' ∉ pat.take (pat.length - 1))
    (hgt : '>' ∉ pat.take (pat.length - 1))
    (hzA : csubS pat "    <li><a href=\"#" = 0)
    (hzB : csubS pat "\">" = 0)
    (hzC : csubS pat "</a>" = 0)
    (hslug : csubS pat item.slug = 0) (htitle : csubS pat item.title = 0) :
    csubS pat (X ++ ("    <li><a href=\"#" ++ item.slug ++ "\">" ++ item.title ++ "</a>"))
      = csubS pat X := by
  rw [show X ++ ("    <li><a href=\"#" ++ item.slug ++ "\">" ++ item.title ++ "</a>")
      = ((((X ++ "    <li><a href=\"#") ++ item.slug) ++ "\">") ++ item.title) ++ "</a>" by
    simp only [String.append_assoc]]
  rw [csubSAppRight _ _ _ hC]
  rw [csubSAppLast pat _ item.title '>' (strLastAppend _ _ _ (by decide)) hgt]
  rw [csubSAppRight _ _ _ hB]
  rw [csubSAppLast pat _ item.slug '#' (strLastAppend _ _ _ (by decide)) hsharp]
  rw [csubSAppRight _ _ _ hA]
  omega

theorem tocStepCount (html : String) (cur : Nat) (item : TocItem)
    (hl : 1 ≤ item.level) (hcur : 1 ≤ cur)
    (ht1 : csubS ulOpenPat item.title = 0) (ht2 : csubS ulClosePat item.title = 0)
    (hs1 : csubS ulOpenPat item.slug = 0) (hs2 : csubS ulClosePat item.slug = 0)
    (hinv : csubS ulOpenPat html = csubS ulClosePat html + cur) :
    (tocStep (html, cur) item).2 = item.level ∧
    csubS ulOpenPat (tocStep (html, cur) item).1
      = csubS ulClosePat (tocStep (html, cur) item).1 + item.level := by
  refine ⟨rfl, ?_⟩
  show csubS ulOpenPat
      ((if item.level > cur then html ++ repeatStr (item.level - cur) nestedOpen
        else if item.level < cur then html ++ repeatStr (cur - item.level) nestedClose
        else html)
        ++ ("    <li><a href=\"#" ++ item.slug ++ "\">" ++ item.title ++ "</a>"))
    = csubS ulClosePat
      ((if item.level > cur then html ++ repeatStr (item.level - cur) nestedOpen
        else if item.level < cur then html ++ repeatStr (cur - item.level) nestedClose
        else html)
        ++ ("    <li><a href=\"#" ++ item.slug ++ "\">" ++ item.title ++ "</a>"))
      + item.level
  rw [csubSLi ulOpenPat _ item (by decide) (by decide) (by decide) (by decide) (by decide)
      (by decide) (by decide) (by decide) hs1 ht1]
  rw [csubSLi ulClosePat _ item (by decide) (by decide) (by decide) (by decide) (by decide)
      (by decide) (by decide) (by decide) hs2 ht2]
  rcases Nat.lt_trichotomy item.level cur with hlt | heq | hgt
  · rw [if_neg (by omega), if_pos hlt]
    rw [csubSRepeat ulOpenPat nestedClose _ html (by decide)]
    rw [csubSRepeat ulClosePat nestedClose _ html (by decide)]
    have e1 : csubS ulOpenPat nestedClose = 0 := by decide
    have e2 : csubS ulClosePat nestedClose = 1 := by decide
    rw [e1, e2]
    omega
  · rw [if_neg (by omega), if_neg (by omega)]
    omega
  · rw [if_pos hgt]
    rw [csubSRepeat ulOpenPat nestedOpen _ html (by decide)]
    rw [csubSRepeat ulClosePat nestedOpen _ html (by decide)]
    have e1 : csubS ulOpenPat nestedOpen = 1 := by decide
    have e2 : csubS ulClosePat nestedOpen = 0 := by decide
    rw [e1, e2]
    omega

theorem tocFoldCount (toc : List TocItem)
    (hclean : ∀ it ∈ toc, 1 ≤ it.level ∧ csubS ulOpenPat it.title = 0 ∧
      csubS ulClosePat it.title = 0 ∧ csubS ulOpenPat it.slug = 0 ∧ csubS ulClosePat it.slug = 0) :
    ∀ (html : String) (cur : Nat), 1 ≤ cur →
      csubS ulOpenPat html = csubS ulClosePat html + cur →
      1 ≤ (toc.foldl tocStep (html, cur)).2 ∧
      csubS ulOpenPat (toc.foldl tocStep (html, cur)).1
        = csubS ulClosePat (toc.foldl tocStep (html, cur)).1 + (toc.foldl tocStep (html, cur)).2 := by
  induction toc with
  | nil =>
    intro html cur hcur hinv
    exact ⟨hcur, hinv⟩
  | cons item rest ih =>
    intro html cur hcur hinv
    obtain ⟨hl, ht1, ht2, hs1, hs2⟩ := hclean item (List.mem_cons_self item rest)
    obtain ⟨hsnd, hcount⟩ := tocStepCount html cur item hl hcur ht1 ht2 hs1 hs2 hinv
    have hrest : ∀ it ∈ rest, 1 ≤ it.level ∧ csubS ulOpenPat it.title = 0 ∧
        csubS ulClosePat it.title = 0 ∧ csubS ulOpenPat it.slug = 0 ∧
        csubS ulClosePat it.slug = 0 :=
      fun it hit => hclean it (List.mem_cons_of_mem item hit)
    have := ih hrest (tocStep (html, cur) item).1 (tocStep (html, cur) item).2
      (by rw [hsnd]; exact hl) (by rw [← hsnd] at hcount; exact hcount)
    rw [List.foldl_cons]
    convert this using 3 <;> exact (Prod.mk.eta).symm

/-! ### Claim C10: balance of list wrappers in the sidebar fragment -/

/-- C10 (counterexample to the claim as stated): for the outline
consisting of the single record with level 1 and title `</ul>` — every
level is at least 1, as the claim requires — the fragment contains one
occurrence of `<ul` but two occurrences of `</ul>`, because the title is
interpolated verbatim into the list item.  The claimed count equality
therefore fails. -/
theorem claim_c10_counterexample :
    csubS ulOpenPat (generate_sidebar_toc [⟨1, "</ul>", "x"⟩]) = 1 ∧
    csubS ulClosePat (generate_sidebar_toc [⟨1, "</ul>", "x"⟩]) = 2 :=
  ⟨by decide, by decide⟩

/-- C10 (amended): for every outline in which each record's level is at
least 1 and no record's title or slug contains an occurrence of `<ul` or
of `</ul>`, the fragment produced by the nested list renderer contains
exactly as many `<ul` occurrences as `</ul>` occurrences, counting the
outer list, regardless of the level sequence. -/
theorem claim_c10_amended (toc : List TocItem)
    (h : ∀ it ∈ toc, 1 ≤ it.level ∧ csubS ulOpenPat it.title = 0 ∧
      csubS ulClosePat it.title = 0 ∧ csubS ulOpenPat it.slug = 0 ∧
      csubS ulClosePat it.slug = 0) :
    csubS ulOpenPat (generate_sidebar_toc toc)
      = csubS ulClosePat (generate_sidebar_toc toc) := by
  cases toc with
  | nil => decide
  | cons item rest =>
    have hfold := tocFoldCount (item :: rest) h tocHeader 1 (by omega) (by decide)
    show csubS ulOpenPat
        (((item :: rest).foldl tocStep (tocHeader, 1)).1
          ++ repeatStr (((item :: rest).foldl tocStep (tocHeader, 1)).2 - 1) nestedClose
          ++ "</li>\n</ul>\n")
      = csubS ulClosePat
        (((item :: rest).foldl tocStep (tocHeader, 1)).1
          ++ repeatStr (((item :: rest).foldl tocStep (tocHeader, 1)).2 - 1) nestedClose
          ++ "</li>\n</ul>\n")
    rw [csubSAppRight ulOpenPat _ _ (by decide), csubSAppRight ulClosePat _ _ (by decide)]
    rw [csubSRepeat ulOpenPat nestedClose _ _ (by decide)]
    rw [csubSRepeat ulClosePat nestedClose _ _ (by decide)]
    have e1 : csubS ulOpenPat nestedClose = 0 := by decide
    have e2 : csubS ulClosePat nestedClose = 1 := by decide
    have e3 : csubS ulOpenPat "</li>\n</ul>\n" = 0 := by decide
    have e4 : csubS ulClosePat "</li>\n</ul>\n" = 1 := by decide
    rw [e1, e2, e3, e4]
    omega

/-- C10 (witness): a concrete outline satisfying the hypotheses of the
amended claim, whose rendered fragment balances its list wrappers. -/
theorem claim_c10_witness :
    (∀ it ∈ ([⟨1, "Intro", "intro"⟩, ⟨3, "Deep", "deep"⟩, ⟨2, "Next", "next"⟩] : List TocItem),
      1 ≤ it.level ∧ csubS ulOpenPat it.title = 0 ∧ csubS ulClosePat it.title = 0 ∧
      csubS ulOpenPat it.slug = 0 ∧ csubS ulClosePat it.slug = 0) ∧
    csubS ulOpenPat (generate_sidebar_toc
        [⟨1, "Intro", "intro"⟩, ⟨3, "Deep", "deep"⟩, ⟨2, "Next", "next"⟩])
      = csubS ulClosePat (generate_sidebar_toc
        [⟨1, "Intro", "intro"⟩, ⟨3, "Deep", "deep"⟩, ⟨2, "Next", "next"⟩]) :=
  ⟨by decide, claim_c10_amended _ (by decide)⟩

/-! ### Claim C6: the closing sequence of the renderer -/

theorem foldSndLast (toc : List TocItem) (item : TocItem) (h : toc.getLast? = some item) :
    ∀ a : String × Nat, (toc.foldl tocStep a).2 = item.level := by
  induction toc with
  | nil => simp at h
  | cons x t ih =>
    intro a
    cases t with
    | nil =>
      simp only [List.getLast?_singleton, Option.some.injEq] at h
      rw [← h]
      rfl
    | cons y u =>
      have h' : (y :: u).getLast? = some item := by rwa [List.getLast?_cons_cons] at h
      rw [List.foldl_cons]
      exact ih h' _

/-- C6: for every non-empty outline (with last record `item`), the
renderer's output is the loop output followed by exactly
`item.level - 1` nested-wrapper closings — `current_level` after the loop
is the last record's level — and then one final `'</li>\n</ul>\n'`,
closing the outer list and its container item once. -/
theorem claim_c6 (toc : List TocItem) (item : TocItem) (h : toc.getLast? = some item) :
    generate_sidebar_toc toc
      = (toc.foldl tocStep (tocHeader, 1)).1
        ++ repeatStr (item.level - 1) nestedClose ++ "</li>\n</ul>\n" := by
  cases toc with
  | nil => simp at h
  | cons x t =>
    show ((x :: t).foldl tocStep (tocHeader, 1)).1
        ++ repeatStr (((x :: t).foldl tocStep (tocHeader, 1)).2 - 1) nestedClose
        ++ "</li>\n</ul>\n" = _
    rw [foldSndLast (x :: t) item h (tocHeader, 1)]

/-- C6 (witness): the closing sequence for a concrete two-record outline
whose last record has level 3. -/
theorem claim_c6_witness :
    (([⟨1, "A", "a"⟩, ⟨3, "B", "b"⟩] : List TocItem).getLast? = some ⟨3, "B", "b"⟩) ∧
    generate_sidebar_toc [⟨1, "A", "a"⟩, ⟨3, "B", "b"⟩]
      = (([⟨1, "A", "a"⟩, ⟨3, "B", "b"⟩] : List TocItem).foldl tocStep (tocHeader, 1)).1
        ++ repeatStr (3 - 1) nestedClose ++ "</li>\n</ul>\n" :=
  ⟨rfl, claim_c6 [⟨1, "A", "a"⟩, ⟨3, "B", "b"⟩] ⟨3, "B", "b"⟩ rfl⟩

/-! ### Claim C3: the per-record behaviour of the renderer loop -/

/-- C3: one loop iteration of the renderer, on a record with level
`item.level` and current level `cur`, appends exactly
`item.level - cur` nested-list openings (the literal truncated delta — so
a jump from 1 to 4 opens three wrappers, and nothing is opened when
`item.level ≤ cur`), then exactly `cur - item.level` nested-list
closings, then one list item linking to `'#' ++ slug` labelled with the
title, and returns the record's level as the new current level. -/
theorem claim_c3 (html : String) (cur : Nat) (item : TocItem) :
    tocStep (html, cur) item
      = (html ++ repeatStr (item.level - cur) nestedOpen
           ++ repeatStr (cur - item.level) nestedClose
           ++ ("    <li><a href=\"#" ++ item.slug ++ "\">" ++ item.title ++ "</a>"),
         item.level) := by
  have hmain : (if item.level > cur then html ++ repeatStr (item.level - cur) nestedOpen
        else if item.level < cur then html ++ repeatStr (cur - item.level) nestedClose
        else html)
      = html ++ repeatStr (item.level - cur) nestedOpen
          ++ repeatStr (cur - item.level) nestedClose := by
    rcases Nat.lt_trichotomy item.level cur with hlt | heq | hgt
    · rw [if_neg (by omega), if_pos hlt]
      rw [Nat.sub_eq_zero_of_le (Nat.le_of_lt hlt)]
      show _ = html ++ "" ++ _
      rw [String.append_empty]
    · rw [if_neg (by omega), if_neg (by omega)]
      rw [heq, Nat.sub_self]
      show html = html ++ "" ++ ""
      rw [String.append_empty, String.append_empty]
    · rw [if_pos hgt]
      rw [Nat.sub_eq_zero_of_le (Nat.le_of_lt hgt)]
      show _ = _ ++ ""
      rw [String.append_empty]
  show ((if item.level > cur then html ++ repeatStr (item.level - cur) nestedOpen
        else if item.level < cur then html ++ repeatStr (cur - item.level) nestedClose
        else html)
      ++ ("    <li><a href=\"#" ++ item.slug ++ "\">" ++ item.title ++ "</a>"), item.level) = _
  rw [hmain]

/-! ### Claim C8: the output filename mapping -/

/-- C8: a stem equal to `readme` under case-insensitive comparison maps
to `index`, `readme_en` to `index_en`, `contributing` to `contributing`,
and every other stem maps to itself, with `.html` appended in every
case; concretely, `README.md` in various letter cases produces
`index.html`, `CONTRIBUTING.md` produces `contributing.html`, and
`guide.md` produces `guide.html`. -/
theorem claim_c8 :
    (∀ s, pyLower s = "readme" → outputFileName s = "index.html") ∧
    (∀ s, pyLower s = "readme_en" → outputFileName s = "index_en.html") ∧
    (∀ s, pyLower s = "contributing" → outputFileName s = "contributing.html") ∧
    (∀ s, pyLower s ≠ "readme" → pyLower s ≠ "readme_en" → pyLower s ≠ "contributing" →
      outputFileName s = s ++ ".html") ∧
    outputFileName (stemOf "README.md") = "index.html" ∧
    outputFileName (stemOf "ReAdMe.md") = "index.html" ∧
    outputFileName (stemOf "readme.md") = "index.html" ∧
    outputFileName (stemOf "CONTRIBUTING.md") = "contributing.html" ∧
    outputFileName (stemOf "guide.md") = "guide.html" := by
  refine ⟨?_, ?_, ?_, ?_, by decide, by decide, by decide, by decide, by decide⟩
  · intro s h
    show (if pyLower s = "readme" then "index"
      else if pyLower s = "readme_en" then "index_en"
      else if pyLower s = "contributing" then "contributing"
      else s) ++ ".html" = "index.html"
    rw [if_pos h]
    decide
  · intro s h
    show (if pyLower s = "readme" then "index"
      else if pyLower s = "readme_en" then "index_en"
      else if pyLower s = "contributing" then "contributing"
      else s) ++ ".html" = "index_en.html"
    rw [if_neg (by rw [h]; decide), if_pos h]
    decide
  · intro s h
    show (if pyLower s = "readme" then "index"
      else if pyLower s = "readme_en" then "index_en"
      else if pyLower s = "contributing" then "contributing"
      else s) ++ ".html" = "contributing.html"
    rw [if_neg (by rw [h]; decide), if_neg (by rw [h]; decide), if_pos h]
    decide
  · intro s h1 h2 h3
    show (if pyLower s = "readme" then "index"
      else if pyLower s = "readme_en" then "index_en"
      else if pyLower s = "contributing" then "contributing"
      else s) ++ ".html" = s ++ ".html"
    rw [if_neg h1, if_neg h2, if_neg h3]

/-- C8 (witness): an unrecognised stem is kept unchanged. -/
theorem claim_c8_witness :
    pyLower "Guide" ≠ "readme" ∧ outputFileName "Guide" = "Guide.html" :=
  ⟨by decide, claim_c8.2.2.2.1 "Guide" (by decide) (by decide) (by decide)⟩

/-! ### Claim C2: the slug derivation -/

/-- C2 (counterexample to the claim as stated): the claim says an
internal whitespace run of any length collapses to a single hyphen, so
the title `Two  Spaces` (two consecutive spaces) would slug to
`two-spaces`; the code replaces each space character separately and
produces `two--spaces`, and it leaves a tab character entirely
unreplaced. -/
theorem claim_c2_counterexample :
    slugClaim "Two  Spaces" = "two-spaces" ∧
    slugify "Two  Spaces" = "two--spaces" ∧
    slugify "Two  Spaces" ≠ slugClaim "Two  Spaces" ∧
    slugify "a\tb" = "a\tb" :=
  ⟨by decide, by decide, by decide, by decide⟩

/-- C2 (amended): the slug is obtained by lower-casing the title,
removing every character outside the set of word characters, whitespace
and hyphen, trimming whitespace at both ends, and then replacing every
space character individually with a hyphen — so an internal run of `n`
spaces yields `n` hyphens (never one for the whole run), and internal
whitespace other than spaces, such as a tab, is left unchanged. -/
theorem claim_c2_amended :
    (∀ t : String,
      slugify t = ⟨(pyStripL ((t.data.map Char.toLower).filter slugKeep)).map spaceToHyphen⟩) ∧
    (∀ n : Nat, slugifyL ('a' :: (List.replicate n ' ' ++ ['b']))
      = 'a' :: (List.replicate n '-' ++ ['b'])) ∧
    slugify "a\tb" = "a\tb" := by
  refine ⟨fun t => rfl, ?_, by decide⟩
  intro n
  have hcab : 'a' :: (List.replicate n ' ' ++ ['b'])
      = ('a' :: List.replicate n ' ') ++ ['b'] := (List.cons_append _ _ _).symm
  have hmap : ('a' :: (List.replicate n ' ' ++ ['b'])).map Char.toLower
      = 'a' :: (List.replicate n ' ' ++ ['b']) := by
    rw [List.map_cons, List.map_append, List.map_replicate, List.map_singleton]
    rw [show Char.toLower 'a' = 'a' from by decide]
    rw [show Char.toLower ' ' = ' ' from by decide]
    rw [show Char.toLower 'b' = 'b' from by decide]
  have hfil : ('a' :: (List.replicate n ' ' ++ ['b'])).filter slugKeep
      = 'a' :: (List.replicate n ' ' ++ ['b']) := by
    apply List.filter_eq_self.mpr
    intro c hc
    rw [List.mem_cons] at hc
    rcases hc with h | h
    · rw [h]; decide
    · rw [List.mem_append] at h
      rcases h with h | h
      · rw [List.eq_of_mem_replicate h]; decide
      · rw [List.mem_singleton] at h
        rw [h]; decide
  have hstrip : pyStripL ('a' :: (List.replicate n ' ' ++ ['b']))
      = 'a' :: (List.replicate n ' ' ++ ['b']) := by
    apply pyStripL_eq_self
    · intro c hc
      rw [List.head?_cons] at hc
      cases hc
      decide
    · intro c hc
      rw [hcab, List.getLast?_concat] at hc
      cases hc
      decide
  show (pyStripL ((('a' :: (List.replicate n ' ' ++ ['b'])).map Char.toLower).filter
      slugKeep)).map spaceToHyphen = _
  rw [hmap, hfil, hstrip]
  rw [List.map_cons, List.map_append, List.map_replicate, List.map_singleton]
  rw [show spaceToHyphen 'a' = 'a' from by decide]
  rw [show spaceToHyphen ' ' = '-' from by decide]
  rw [show spaceToHyphen 'b' = 'b' from by decide]

/-! ### Claim C1: the page title -/

/-- C1 (evaluation at the failing input): the document
`"intro\n# Real Title"` has the level-1 heading `Real Title` on its
second line — the outline extractor itself recognises it — yet the page
title is the filename-derived fallback `My Doc`, not `Real Title`,
because `re.match(r'^#\s+(.+)', content, re.MULTILINE)` anchors at the
start of the whole string even under `re.MULTILINE` and the document
does not begin with the heading.  When the document does begin with a
level-1 heading, the heading text is used. -/
theorem claim_c1_failing :
    extract_toc_from_markdown "intro\n# Real Title"
      = [⟨1, "Real Title", "real-title"⟩] ∧
    extractTitle "intro\n# Real Title" "my_doc" = "My Doc" ∧
    extractTitle "# Real Title\nintro" "my_doc" = "Real Title" ∧
    ("My Doc" : String) ≠ "Real Title" :=
  ⟨by decide, by decide, by decide, by decide⟩

/-! ### Claim C9: the batch loop -/

/-- C9: the batch loop converts the files independently — the reports
around any one file are exactly the reports the loop produces for the
other files, so a failure of one document never prevents converting the
later ones; a non-empty run always ends with the completion message; and
in the concrete three-document batch where only the middle document
fails, the other two are converted and the run reports completion. -/
theorem claim_c9 :
    (∀ (convert : String → Except String String) (files₁ files₂ : List String) (f : String),
      convertLoop convert (files₁ ++ f :: files₂)
        = convertLoop convert files₁ ++ convertReport convert f :: convertLoop convert files₂) ∧
    (∀ (convert : String → Except String String) (files : List String), files ≠ [] →
      (mainMessages convert files).getLast? = some completionMessage) ∧
    mainMessages
        (fun f => if f = "b.md" then Except.error "render boom" else Except.ok ("docs/" ++ f))
        ["a.md", "b.md", "c.md"]
      = ["Found 3 markdown files to convert...",
         "Converted a.md -> docs/a.md",
         "Error converting b.md: render boom",
         "Converted c.md -> docs/c.md",
         completionMessage] := by
  refine ⟨?_, ?_, by decide⟩
  · intro convert files₁ files₂ f
    induction files₁ with
    | nil => rfl
    | cons g t ih =>
      show convertReport convert g :: convertLoop convert (t ++ f :: files₂) = _
      rw [ih]
      rfl
  · intro convert files hne
    cases files with
    | nil => exact absurd rfl hne
    | cons g t =>
      show (("Found " ++ toString (g :: t).length ++ " markdown files to convert...")
        :: (convertLoop convert (g :: t) ++ [completionMessage])).getLast? = some completionMessage
      rw [show ("Found " ++ toString (g :: t).length ++ " markdown files to convert...")
          :: (convertLoop convert (g :: t) ++ [completionMessage])
        = (("Found " ++ toString (g :: t).length ++ " markdown files to convert...")
          :: convertLoop convert (g :: t)) ++ [completionMessage] from by
          rw [List.cons_append]]
      exact List.getLast?_concat _

/-- C9 (witness): a one-document batch ends with the completion
message. -/
theorem claim_c9_witness :
    (mainMessages (fun f => Except.ok ("docs/" ++ f)) ["a.md"]).getLast?
      = some completionMessage :=
  claim_c9.2.1 (fun f => Except.ok ("docs/" ++ f)) ["a.md"] (by decide)

/-! ### Claims C4 and C7: the outline extractor -/

theorem splitOnNewlineNe (l : List Char) : splitOnNewline l ≠ [] := by
  induction l with
  | nil => simp [splitOnNewline]
  | cons c t ih =>
    by_cases h : c = '\n'
    · simp [splitOnNewline, h]
    · simp only [splitOnNewline, if_neg h]
      cases hs : splitOnNewline t with
      | nil => simp
      | cons a r => simp

theorem splitNoNl (l : List Char) : ∀ piece ∈ splitOnNewline l, '\n' ∉ piece := by
  induction l with
  | nil =>
    intro piece hp
    simp [splitOnNewline] at hp
    rw [hp]
    simp
  | cons c t ih =>
    intro piece hp
    by_cases h : c = '\n'
    · rw [show splitOnNewline (c :: t) = [] :: splitOnNewline t from by
        simp [splitOnNewline, h]] at hp
      rw [List.mem_cons] at hp
      rcases hp with h1 | h1
      · rw [h1]; simp
      · exact ih piece h1
    · cases hs : splitOnNewline t with
      | nil => exact absurd hs (splitOnNewlineNe t)
      | cons a r =>
        rw [show splitOnNewline (c :: t) = (c :: a) :: r from by
          simp [splitOnNewline, h, hs]] at hp
        rw [List.mem_cons] at hp
        rcases hp with h1 | h1
        · rw [h1]
          intro hmem
          rw [List.mem_cons] at hmem
          rcases hmem with h2 | h2
          · exact h h2.symm
          · exact ih a (by rw [hs]; exact List.mem_cons_self a r) h2
        · exact ih piece (by rw [hs]; exact List.mem_cons_of_mem a h1)

theorem extractFold (lines : List (List Char)) (acc : List TocItem) :
    lines.foldl (fun toc line => match lineRecord line with
      | some item => toc ++ [item]
      | none => toc) acc
    = acc ++ lines.filterMap lineRecord := by
  induction lines generalizing acc with
  | nil => simp
  | cons l t ih =>
    rw [List.foldl_cons, List.filterMap_cons]
    cases hr : lineRecord l with
    | none =>
      simp only [hr]
      exact ih acc
    | some it =>
      simp only [hr]
      rw [ih (acc ++ [it]), List.append_assoc, List.singleton_append]

theorem lineRecordSpec (line : List Char) (hnl : '\n' ∉ line) :
    (lineRecord line).map (fun it => (it.level, it.title)) = headingSpecLT line := by
  simp only [lineRecord, headingSpecLT]
  have hdrop := List.drop_left (List.takeWhile (fun c => decide (c = '#')) (pyStripL line))
    (List.dropWhile (fun c => decide (c = '#')) (pyStripL line))
  rw [List.takeWhile_append_dropWhile (fun c => decide (c = '#')) (pyStripL line)] at hdrop
  rw [hdrop]
  cases hAfter : List.dropWhile (fun c => decide (c = '#')) (pyStripL line) with
  | nil => rfl
  | cons c r =>
    simp only []
    by_cases hcond : 1 ≤ (List.takeWhile (fun c => decide (c = '#')) (pyStripL line)).length ∧
        (List.takeWhile (fun c => decide (c = '#')) (pyStripL line)).length ≤ 6 ∧
        isSpaceChar c = true
    · rw [if_pos hcond, if_pos hcond, Option.map_some']
      have hg2 : ((c :: r).dropWhile isSpaceChar).takeWhile (fun c => c ≠ '\n')
          = r.dropWhile isSpaceChar := by
        rw [List.dropWhile_cons, if_pos hcond.2.2]
        apply takeWhileSelf
        intro x hx
        have hxr : x ∈ r := (List.dropWhile_suffix isSpaceChar).subset hx
        have hxline : x ∈ line := by
          apply mem_of_mem_pyStripL
          have hxa : x ∈ List.dropWhile (fun c => decide (c = '#')) (pyStripL line) := by
            rw [hAfter]
            exact List.mem_cons_of_mem c hxr
          exact (List.dropWhile_suffix (fun c => decide (c = '#'))).subset hxa
        have hne : x ≠ '\n' := fun he => hnl (he ▸ hxline)
        exact decide_eq_true hne
      rw [hg2, pyStripL_dropWhile]
    · rw [if_neg hcond, if_neg hcond]
      rfl

/-- C4: for every document, projecting the extracted outline to
(level, title) pairs gives exactly the per-line records described by the
claim, in document line order: each line whose trimmed form is one to
six `#` characters, at least one whitespace character, and remaining
text contributes one record whose level is the number of `#` and whose
title is the trimmed remaining text, and every other line contributes
nothing. -/
theorem claim_c4 (content : String) :
    (extract_toc_from_markdown content).map (fun it => (it.level, it.title))
      = (splitOnNewline content.data).filterMap headingSpecLT := by
  unfold extract_toc_from_markdown
  rw [extractFold _ [], List.nil_append, List.map_filterMap]
  apply List.filterMap_congr
  intro line hline
  exact lineRecordSpec line (splitNoNl content.data line hline)

/-- C7: a document none of whose lines is a well-formed heading line
(the empty document included) yields an empty outline, and the renderer
maps the empty outline to the fixed no-contents fallback fragment rather
than an empty list. -/
theorem claim_c7 (content : String)
    (h : ∀ line ∈ splitOnNewline content.data, headingSpecLT line = none) :
    extract_toc_from_markdown content = [] ∧
    generate_sidebar_toc (extract_toc_from_markdown content)
      = "<p>No table of contents available</p>" ∧
    generate_sidebar_toc [] = "<p>No table of contents available</p>" := by
  have hext : extract_toc_from_markdown content = [] := by
    unfold extract_toc_from_markdown
    rw [extractFold _ [], List.nil_append]
    apply List.filterMap_eq_nil.mpr
    intro line hline
    have hspec := lineRecordSpec line (splitNoNl content.data line hline)
    rw [h line hline] at hspec
    exact Option.map_eq_none'.mp hspec
  exact ⟨hext, by rw [hext]; rfl, rfl⟩

/-- C7 (witness): the empty document. -/
theorem claim_c7_witness :
    (∀ line ∈ splitOnNewline ("" : String).data, headingSpecLT line = none) ∧
    extract_toc_from_markdown "" = [] ∧
    generate_sidebar_toc (extract_toc_from_markdown "")
      = "<p>No table of contents available</p>" :=
  ⟨by decide, (claim_c7 "" (by decide)).1, (claim_c7 "" (by decide)).2.1⟩

/-! ### Claim C5: idempotence of the slug derivation -/

theorem slugifyL_idem (l : List Char) : slugifyL (slugifyL l) = slugifyL l := by
  unfold slugifyL
  set m := pyStripL ((l.map Char.toLower).filter slugKeep) with hm
  have hmemKeep : ∀ c ∈ m, slugKeep c = true := by
    intro c hc
    rw [hm] at hc
    exact List.of_mem_filter (mem_of_mem_pyStripL hc)
  have hmemLower : ∀ c ∈ m, Char.toLower c = c := by
    intro c hc
    rw [hm] at hc
    have h2 : c ∈ l.map Char.toLower := List.mem_of_mem_filter (mem_of_mem_pyStripL hc)
    obtain ⟨d, _, hd⟩ := List.mem_map.mp h2
    rw [← hd]
    exact char_toLower_toLower d
  have hA : (m.map spaceToHyphen).map Char.toLower = m.map spaceToHyphen := by
    rw [List.map_map]
    apply List.map_congr_left
    intro a ha
    show Char.toLower (spaceToHyphen a) = spaceToHyphen a
    by_cases hsp : a = ' '
    · rw [hsp]
      decide
    · rw [show spaceToHyphen a = a from if_neg hsp]
      exact hmemLower a ha
  have hB : (m.map spaceToHyphen).filter slugKeep = m.map spaceToHyphen := by
    apply List.filter_eq_self.mpr
    intro a ha
    obtain ⟨d, hd, hda⟩ := List.mem_map.mp ha
    rw [← hda]
    by_cases hsp : d = ' '
    · rw [hsp]
      decide
    · rw [show spaceToHyphen d = d from if_neg hsp]
      exact hmemKeep d hd
  have hC : pyStripL (m.map spaceToHyphen) = m.map spaceToHyphen := by
    apply pyStripL_eq_self
    · intro c hc
      rw [List.head?_map] at hc
      cases hm0 : m.head? with
      | none =>
        rw [hm0] at hc
        simp at hc
      | some d =>
        rw [hm0, Option.map_some'] at hc
        cases hc
        rw [hm] at hm0
        have hd : isSpaceChar d = false := pyStripL_head hm0
        have hdne : d ≠ ' ' := by
          intro he
          rw [he] at hd
          exact absurd hd (by decide)
        rw [show spaceToHyphen d = d from if_neg hdne]
        exact hd
    · intro c hc
      rw [List.getLast?_map] at hc
      cases hm0 : m.getLast? with
      | none =>
        rw [hm0] at hc
        simp at hc
      | some d =>
        rw [hm0, Option.map_some'] at hc
        cases hc
        rw [hm] at hm0
        have hd : isSpaceChar d = false := pyStripL_getLast hm0
        have hdne : d ≠ ' ' := by
          intro he
          rw [he] at hd
          exact absurd hd (by decide)
        rw [show spaceToHyphen d = d from if_neg hdne]
        exact hd
  have hD : (m.map spaceToHyphen).map spaceToHyphen = m.map spaceToHyphen := by
    rw [List.map_map]
    apply List.map_congr_left
    intro a _
    show spaceToHyphen (spaceToHyphen a) = spaceToHyphen a
    by_cases hsp : a = ' '
    · rw [hsp]
      decide
    · rw [show spaceToHyphen a = a from if_neg hsp]
      exact if_neg hsp
  rw [hA, hB, hC, hD]

/-- C5: slug derivation is idempotent — applying the slug function to a
slug it produced returns that same slug unchanged. -/
theorem claim_c5 (title : String) : slugify (slugify title) = slugify title := by
  show String.mk (slugifyL (slugifyL title.data)) = String.mk (slugifyL title.data)
  rw [slugifyL_idem]
